import Mathlib

/-!
Verification development for the Capex Simulation application
(`FLH - Conceptual-UI/Capex Simulation.py`).

The numeric core of the application is embedded shallowly:

* Randomness is made explicit.  A call to `np.random.binomial(n, p, ...)`
  is modelled as counting, among `n` independent uniform variates in
  `[0,1)`, those that fall below `p` (the standard Bernoulli view of a
  binomial draw).  The uniform variates are supplied as an explicit
  oracle function, indexed by the position of the failure rate in the
  input list, the simulation index, the trader index, and the trial
  index, so that the sequential consumption of the stream by the Python
  loop is reflected in the indexing.
* `np.random.poisson(lam, size)` and `np.random.randint(low, high, size)`
  are likewise modelled over explicit draw oracles; for `randint` the
  oracle value is reduced modulo the width of the half-open interval, so
  that every entry lies in `[low, high)` exactly as numpy guarantees.
* Python dictionaries (`results[rate] = ...` in
  `run_vectorized_simulation`) are modelled as association lists with
  Python semantics: assignment to an existing key overwrites the value
  in place, keeping the original insertion position; assignment to a new
  key appends at the end.
* `np.std` returns an irrational square root; every statement below that
  involves it is parametrised over an arbitrary function
  `np_std : List ℤ → ℚ`, which is applied to exactly the batches the
  source applies it to.
* Money amounts (`payout_per_successful_account`, revenues) are the
  integers the Streamlit widgets produce.
-/

/-- Python-dict assignment `d[k] = v` on an association list: if the key is
already present its value is replaced in place (keeping the original
position), otherwise the pair is appended at the end. -/
def dict_insert {α : Type} [DecidableEq α] {β : Type} (k : α) (v : β) :
    List (α × β) → List (α × β)
  | [] => [(k, v)]
  | p :: rest => if p.1 = k then (k, v) :: rest else p :: dict_insert k v rest

/-- Python-dict lookup `d[k]` on an association list (`none` when absent). -/
def dict_get? {α : Type} [DecidableEq α] {β : Type} (k : α) :
    List (α × β) → Option β
  | [] => none
  | p :: rest => if p.1 = k then some p.2 else dict_get? k rest

/-- Keys of an association list, in order. -/
def dict_keys {α : Type} {β : Type} (d : List (α × β)) : List α :=
  d.map Prod.fst

/-- One binomial draw `np.random.binomial(n, p)`: among `n` independent
uniform variates `us 0, ..., us (n-1)` in `[0,1)`, count those strictly
below the success probability `p`. -/
def binomial_draw (n : ℕ) (p : ℚ) (us : ℕ → ℚ) : ℕ :=
  (List.range n).countP (fun j => decide (us j < p))

/-- One row of the matrix `np.random.binomial(n=trader_accounts, p, size=(n_simulations, len(trader_accounts)))`:
an independent binomial draw for every trader, with `n` = that trader
account count.  `ut t j` is the j-th uniform variate of trader `t`. -/
def sim_row (trader_accounts : List ℕ) (p : ℚ) (ut : ℕ → ℕ → ℚ) : List ℕ :=
  trader_accounts.enum.map (fun ta => binomial_draw ta.2 p (ut ta.1))

/-- The `SimulationBatch` the engine builds for one failure rate:
`total_successful_accounts_per_sim * payout_per_successful_account` for
each of the `n_simulations` rows (`np.sum(..., axis=1)` then the scalar
multiplication).  `u i t j` is the j-th uniform variate of trader `t` in
simulation `i`. -/
def run_vectorized_simulation_batch (trader_accounts : List ℕ)
    (n_simulations : ℕ) (success_rate : ℚ)
    (payout_per_successful_account : ℤ) (u : ℕ → ℕ → ℕ → ℚ) : List ℤ :=
  (List.range n_simulations).map (fun i =>
    ((sim_row trader_accounts success_rate (u i)).sum : ℤ) *
      payout_per_successful_account)

/-- The loop body of `run_vectorized_simulation`: walk the failure-rate
list (with `k` the position of the current rate in the original list,
selecting the slice `u k` of the uniform stream) and store each batch in
the results dict. -/
def run_vectorized_simulation_go (trader_accounts : List ℕ)
    (n_simulations : ℕ) (payout_per_successful_account : ℤ)
    (u : ℕ → ℕ → ℕ → ℕ → ℚ) :
    ℕ → List ℚ → List (ℚ × List ℤ) → List (ℚ × List ℤ)
  | _, [], results => results
  | k, rate :: rest, results =>
      run_vectorized_simulation_go trader_accounts n_simulations
        payout_per_successful_account u (k + 1) rest
        (dict_insert rate
          (run_vectorized_simulation_batch trader_accounts n_simulations
            (1 - rate) payout_per_successful_account (u k))
          results)

/-- The simulation engine
`run_vectorized_simulation(trader_accounts, n_simulations, failure_rates, payout_per_successful_account)`:
for each failure rate, success probability `1 - rate`, one batch of
`n_simulations` payout totals, collected into a dict keyed by the rate. -/
def run_vectorized_simulation (trader_accounts : List ℕ)
    (n_simulations : ℕ) (failure_rates : List ℚ)
    (payout_per_successful_account : ℤ) (u : ℕ → ℕ → ℕ → ℕ → ℚ) :
    List (ℚ × List ℤ) :=
  run_vectorized_simulation_go trader_accounts n_simulations
    payout_per_successful_account u 0 failure_rates []

/-- Variant of the engine recording where a numpy error can abort it:
`np.random.binomial` raises `ValueError` when the probability argument
`p = 1 - rate` lies outside `[0, 1]`.  Nothing else in the function can
fail: the engine itself validates none of its parameters. -/
def run_vectorized_simulation_exc_go (trader_accounts : List ℕ)
    (n_simulations : ℕ) (payout_per_successful_account : ℤ)
    (u : ℕ → ℕ → ℕ → ℕ → ℚ) :
    ℕ → List ℚ → List (ℚ × List ℤ) → Except String (List (ℚ × List ℤ))
  | _, [], results => .ok results
  | k, rate :: rest, results =>
      if 0 ≤ 1 - rate ∧ 1 - rate ≤ 1 then
        run_vectorized_simulation_exc_go trader_accounts n_simulations
          payout_per_successful_account u (k + 1) rest
          (dict_insert rate
            (run_vectorized_simulation_batch trader_accounts n_simulations
              (1 - rate) payout_per_successful_account (u k))
            results)
      else .error "ValueError: p < 0, p > 1 or p is NaN"

/-- Engine run with the numpy sampling error made explicit. -/
def run_vectorized_simulation_exc (trader_accounts : List ℕ)
    (n_simulations : ℕ) (failure_rates : List ℚ)
    (payout_per_successful_account : ℤ) (u : ℕ → ℕ → ℕ → ℕ → ℚ) :
    Except String (List (ℚ × List ℤ)) :=
  run_vectorized_simulation_exc_go trader_accounts n_simulations
    payout_per_successful_account u 0 failure_rates []

/-! ### Population generation, risk sweeps and the main application flow -/

/-- Model of `np.random.poisson(lam, size)`: one oracle draw per trader,
the oracle indexed by the Poisson mean and the trader index. -/
def np_random_poisson (lam : ℕ) (size : ℕ) (draw : ℕ → ℕ → ℕ) : List ℕ :=
  (List.range size).map (draw lam)

/-- Model of `np.random.randint(low, high, size)`: uniform integers on the
half-open interval `[low, high)`, realised by reducing an oracle draw
modulo the interval width. -/
def np_random_randint (low high : ℕ) (size : ℕ) (draw : ℕ → ℕ) : List ℕ :=
  (List.range size).map (fun i => low + draw i % (high - low))

/-- Exact rational value of `np.mean` on an integer batch. -/
def np_mean (xs : List ℤ) : ℚ := (xs.sum : ℚ) / xs.length

/-- One row of the risk-analysis tables: a sweep-axis value, a failure
rate and the standard deviation of that rate's batch. -/
structure RiskPoint where
  axis_value : ℕ
  failure_rate : ℚ
  std_dev : ℚ

/-- `run_risk_analysis(num_traders, n_simulations, failure_rates, payout_per_successful_account)`:
for each average accounts value in `range(1, 21)`, generate a fresh
Poisson population, run the engine, and append one row per failure rate
with the standard deviation of its batch. -/
def run_risk_analysis (num_traders n_simulations : ℕ)
    (failure_rates : List ℚ) (payout_per_successful_account : ℤ)
    (pois : ℕ → ℕ → ℕ) (u : ℕ → ℕ → ℕ → ℕ → ℕ → ℚ)
    (np_std : List ℤ → ℚ) : List RiskPoint :=
  (List.range 20).flatMap (fun a =>
    let avg_acc := a + 1
    let trader_accounts_for_run := np_random_poisson avg_acc num_traders pois
    let sim_res := run_vectorized_simulation trader_accounts_for_run
      n_simulations failure_rates payout_per_successful_account (u avg_acc)
    sim_res.map (fun rp =>
      { axis_value := avg_acc, failure_rate := rp.1, std_dev := np_std rp.2 }))

/-- `run_randomized_risk_analysis(...)`: for each maximum range value in
`range(2, 21)`, generate a fresh uniform population on `[1, max]`
(`np.random.randint(low=1, high=max+1)`), run the engine, and append one
row per failure rate with the standard deviation of its batch. -/
def run_randomized_risk_analysis (num_traders n_simulations : ℕ)
    (failure_rates : List ℚ) (payout_per_successful_account : ℤ)
    (ri : ℕ → ℕ → ℕ) (u : ℕ → ℕ → ℕ → ℕ → ℕ → ℚ)
    (np_std : List ℤ → ℚ) : List RiskPoint :=
  (List.range 19).flatMap (fun m =>
    let max_range_val := m + 2
    let trader_accounts_for_run := np_random_randint 1 (max_range_val + 1)
      num_traders (ri max_range_val)
    let sim_res := run_vectorized_simulation trader_accounts_for_run
      n_simulations failure_rates payout_per_successful_account
      (u max_range_val)
    sim_res.map (fun rp =>
      { axis_value := max_range_val, failure_rate := rp.1,
        std_dev := np_std rp.2 }))

/-- The sidebar parameters of the application. -/
structure SimParams where
  simulate_average : Bool
  num_traders : ℕ
  avg_accounts_per_trader : ℕ
  randomized_account_range : ℕ × ℕ
  n_simulations : ℕ
  cost_per_account : ℤ
  payout_per_successful_account : ℤ
  additional_revenue : ℤ

/-- The random draws one top-level run consumes, split by call site in
the order the script visits them. -/
structure RandomSource where
  pois : ℕ → ℕ → ℕ
  ri : ℕ → ℕ
  u_scenario : ℕ → ℕ → ℕ → ℕ → ℚ
  u_breakeven : ℕ → ℕ → ℕ → ℕ → ℚ
  pois_risk : ℕ → ℕ → ℕ
  ri_risk : ℕ → ℕ → ℕ
  u_risk : ℕ → ℕ → ℕ → ℕ → ℕ → ℚ

/-- Population generation at the top of `main_app` (one of two modes). -/
def generate_trader_accounts (p : SimParams) (rs : RandomSource) : List ℕ :=
  if p.simulate_average then
    np_random_poisson p.avg_accounts_per_trader p.num_traders rs.pois
  else
    np_random_randint p.randomized_account_range.1
      (p.randomized_account_range.2 + 1) p.num_traders rs.ri

/-- The fixed scenario failure rates `[0.90, 0.85, 0.80, 0.75, 0.50]`. -/
def scenario_failure_rates : List ℚ := [9/10, 17/20, 4/5, 3/4, 1/2]

/-- The breakeven sweep `np.arange(0.01, 1.00, 0.01)`: the 99 rates
`0.01, 0.02, ..., 0.99`. -/
def failure_rate_range : List ℚ :=
  (List.range 99).map (fun i : ℕ => ((i : ℚ) + 1) / 100)

/-- Rows of `df_all_scenarios`: one row per (rate, simulated payout)
with the associated profit `total_revenue - payout`. -/
def all_scenarios_rows (total_revenue : ℤ)
    (results : List (ℚ × List ℤ)) : List (ℚ × ℤ × ℤ) :=
  results.flatMap (fun rp => rp.2.map (fun payout_value =>
    (rp.1, payout_value, total_revenue - payout_value)))

/-- Rows of the breakeven table before sorting: one
`(failure_rate, estimated_profit)` pair per batch, with
`estimated_profit = total_revenue - np.mean(payouts)`. -/
def profit_data (total_revenue : ℤ)
    (results : List (ℚ × List ℤ)) : List (ℚ × ℚ) :=
  results.map (fun rp => (rp.1, (total_revenue : ℚ) - np_mean rp.2))

/-- `df_profit = pd.DataFrame(profit_data).sort_values(failure_rate)`:
a stable sort of the rows by failure rate. -/
def sort_values_failure_rate (l : List (ℚ × ℚ)) : List (ℚ × ℚ) :=
  List.insertionSort (fun a b => a.1 ≤ b.1) l

/-- The breakeven search of tab 2: filter the profit table to rows with
`estimated_profit > 0`; if the remainder is nonempty, take the minimum
failure rate among them, otherwise report the not-found outcome. -/
def lowest_profitable_rate_search (df_profit : List (ℚ × ℚ)) : Option ℚ :=
  match (df_profit.filter (fun pr => decide (0 < pr.2))).map Prod.fst with
  | [] => none
  | x :: xs => some (xs.foldl min x)

/-- The per-scenario quantities displayed in tab 1. -/
structure ScenarioView where
  rate : ℚ
  mean_payout : ℚ
  std_payout : ℚ
  estimated_net_profit : ℚ
  profit_minus_1_std : ℚ
  profit_plus_1_std : ℚ

/-- Tab 1 of the application: for each scenario failure rate, the mean
and standard deviation of its batch, the estimated net profit, and the
one-standard-deviation profit range. -/
def scenario_views (total_revenue : ℤ) (results : List (ℚ × List ℤ))
    (np_std : List ℤ → ℚ) : List ScenarioView :=
  scenario_failure_rates.map (fun rate =>
    let payouts := (dict_get? rate results).getD []
    let mean_payout := np_mean payouts
    let std_payout := np_std payouts
    { rate := rate, mean_payout := mean_payout, std_payout := std_payout,
      estimated_net_profit := (total_revenue : ℚ) - mean_payout,
      profit_minus_1_std := (total_revenue : ℚ) - (mean_payout + std_payout),
      profit_plus_1_std := (total_revenue : ℚ) - (mean_payout - std_payout) })

/-- Everything the numeric part of `main_app` computes. -/
structure AppOutputs where
  trader_accounts : List ℕ
  total_accounts : ℕ
  total_revenue : ℤ
  simulation_results : List (ℚ × List ℤ)
  all_scenarios_data : List (ℚ × ℤ × ℤ)
  breakeven_results : List (ℚ × List ℤ)
  df_profit : List (ℚ × ℚ)
  df_risk_analysis : List RiskPoint
  views : List ScenarioView
  lowest_profitable_rate : Option ℚ

/-- The numeric flow of `main_app`: generate the population once, derive
the total revenue, run the engine once for the scenario rates and once
for the breakeven sweep over the same population, run the risk analysis
for the selected mode, and derive the display tables. -/
def main_app_run (p : SimParams) (rs : RandomSource)
    (np_std : List ℤ → ℚ) : AppOutputs :=
  let trader_accounts := generate_trader_accounts p rs
  let total_accounts := trader_accounts.sum
  let total_revenue := (total_accounts : ℤ) * p.cost_per_account +
    p.additional_revenue
  let simulation_results := run_vectorized_simulation trader_accounts
    p.n_simulations scenario_failure_rates p.payout_per_successful_account
    rs.u_scenario
  let breakeven_results := run_vectorized_simulation trader_accounts
    p.n_simulations failure_rate_range p.payout_per_successful_account
    rs.u_breakeven
  { trader_accounts := trader_accounts
    total_accounts := total_accounts
    total_revenue := total_revenue
    simulation_results := simulation_results
    all_scenarios_data := all_scenarios_rows total_revenue simulation_results
    breakeven_results := breakeven_results
    df_profit := sort_values_failure_rate
      (profit_data total_revenue breakeven_results)
    df_risk_analysis :=
      if p.simulate_average then
        run_risk_analysis p.num_traders p.n_simulations
          scenario_failure_rates p.payout_per_successful_account
          rs.pois_risk rs.u_risk np_std
      else
        run_randomized_risk_analysis p.num_traders p.n_simulations
          scenario_failure_rates p.payout_per_successful_account
          rs.ri_risk rs.u_risk np_std
    views := scenario_views total_revenue simulation_results np_std
    lowest_profitable_rate := lowest_profitable_rate_search
      (sort_values_failure_rate (profit_data total_revenue breakeven_results)) }


/-! ### Association-list (Python dict) lemmas -/

theorem dict_keys_cons {α : Type} {β : Type} (p : α × β) (d : List (α × β)) :
    dict_keys (p :: d) = p.1 :: dict_keys d := rfl

theorem dict_insert_of_not_mem {α : Type} [DecidableEq α] {β : Type}
    (k : α) (v : β) (d : List (α × β)) (h : ∀ p ∈ d, p.1 ≠ k) :
    dict_insert k v d = d ++ [(k, v)] := by
  induction d with
  | nil => rfl
  | cons p rest ih =>
      have hp : p.1 ≠ k := h p (List.mem_cons_self p rest)
      simp only [dict_insert, if_neg hp, List.cons_append]
      exact congrArg (p :: ·) (ih fun q hq => h q (List.mem_cons_of_mem p hq))

theorem dict_insert_of_not_mem_keys {α : Type} [DecidableEq α] {β : Type}
    (k : α) (v : β) (d : List (α × β)) (h : k ∉ dict_keys d) :
    dict_insert k v d = d ++ [(k, v)] :=
  dict_insert_of_not_mem k v d fun p hp e =>
    h (e ▸ List.mem_map_of_mem Prod.fst hp)

theorem dict_get?_insert_self {α : Type} [DecidableEq α] {β : Type}
    (k : α) (v : β) (d : List (α × β)) :
    dict_get? k (dict_insert k v d) = some v := by
  induction d with
  | nil => simp [dict_insert, dict_get?]
  | cons p rest ih =>
      by_cases hp : p.1 = k
      · simp [dict_insert, dict_get?, hp]
      · simp [dict_insert, dict_get?, hp, ih]

theorem dict_get?_insert_ne {α : Type} [DecidableEq α] {β : Type}
    (k kq : α) (v : β) (d : List (α × β)) (h : kq ≠ k) :
    dict_get? kq (dict_insert k v d) = dict_get? kq d := by
  induction d with
  | nil =>
      simp only [dict_insert, dict_get?]
      rw [if_neg fun e => h e.symm]
  | cons p rest ih =>
      by_cases hp : p.1 = k
      · subst hp
        simp only [dict_insert, if_pos rfl, dict_get?]
        rw [if_neg fun e => h e.symm, if_neg fun e => h e.symm]
      · simp only [dict_insert, if_neg hp, dict_get?]
        rw [ih]

theorem dict_keys_insert_of_mem {α : Type} [DecidableEq α] {β : Type}
    (k : α) (v : β) (d : List (α × β)) (h : k ∈ dict_keys d) :
    dict_keys (dict_insert k v d) = dict_keys d := by
  induction d with
  | nil => simp [dict_keys] at h
  | cons p rest ih =>
      by_cases hp : p.1 = k
      · simp [dict_insert, if_pos hp, dict_keys_cons, hp]
      · have h1 : k = p.1 ∨ k ∈ dict_keys rest := by
          rw [dict_keys_cons] at h
          exact List.mem_cons.mp h
        rcases h1 with h1 | h1
        · exact absurd h1.symm hp
        · simp only [dict_insert, if_neg hp, dict_keys_cons, ih h1]

theorem dict_keys_insert_of_not_mem {α : Type} [DecidableEq α] {β : Type}
    (k : α) (v : β) (d : List (α × β)) (h : k ∉ dict_keys d) :
    dict_keys (dict_insert k v d) = dict_keys d ++ [k] := by
  rw [dict_insert_of_not_mem_keys k v d h]
  simp [dict_keys]

theorem mem_keys_insert {α : Type} [DecidableEq α] {β : Type}
    (r k : α) (v : β) (d : List (α × β)) :
    r ∈ dict_keys (dict_insert k v d) ↔ r = k ∨ r ∈ dict_keys d := by
  by_cases h : k ∈ dict_keys d
  · rw [dict_keys_insert_of_mem k v d h]
    constructor
    · exact Or.inr
    · rintro (rfl | hr)
      · exact h
      · exact hr
  · rw [dict_keys_insert_of_not_mem k v d h]
    simp [or_comm]

theorem nodup_keys_insert {α : Type} [DecidableEq α] {β : Type}
    (k : α) (v : β) (d : List (α × β)) (h : (dict_keys d).Nodup) :
    (dict_keys (dict_insert k v d)).Nodup := by
  by_cases hk : k ∈ dict_keys d
  · rwa [dict_keys_insert_of_mem k v d hk]
  · rw [dict_keys_insert_of_not_mem k v d hk]
    simp only [List.nodup_append, List.nodup_cons, List.nodup_nil]
    exact ⟨h, by simp, by simpa [List.disjoint_right] using hk⟩

theorem length_insert_of_mem_keys {α : Type} [DecidableEq α] {β : Type}
    (k : α) (v : β) (d : List (α × β)) (h : k ∈ dict_keys d) :
    (dict_insert k v d).length = d.length := by
  induction d with
  | nil => simp [dict_keys] at h
  | cons p rest ih =>
      by_cases hp : p.1 = k
      · simp [dict_insert, hp]
      · have h1 : k = p.1 ∨ k ∈ dict_keys rest := by
          rw [dict_keys_cons] at h
          exact List.mem_cons.mp h
        rcases h1 with h1 | h1
        · exact absurd h1.symm hp
        · simp [dict_insert, hp, ih h1]

theorem length_insert_le {α : Type} [DecidableEq α] {β : Type}
    (k : α) (v : β) (d : List (α × β)) :
    (dict_insert k v d).length ≤ d.length + 1 := by
  induction d with
  | nil => simp [dict_insert]
  | cons p rest ih =>
      by_cases hp : p.1 = k
      · simp [dict_insert, hp]
      · simpa [dict_insert, hp] using Nat.succ_le_succ ih

theorem dict_get?_eq_some_of_mem_keys {α : Type} [DecidableEq α] {β : Type}
    (r : α) (d : List (α × β)) (h : r ∈ dict_keys d) :
    ∃ b, dict_get? r d = some b := by
  induction d with
  | nil => simp [dict_keys] at h
  | cons p rest ih =>
      by_cases hp : p.1 = r
      · exact ⟨p.2, by simp [dict_get?, hp]⟩
      · have h1 : r = p.1 ∨ r ∈ dict_keys rest := by
          rw [dict_keys_cons] at h
          exact List.mem_cons.mp h
        rcases h1 with h1 | h1
        · exact absurd h1.symm hp
        · simpa [dict_get?, hp] using ih h1

/-! ### Structure of the simulation engine result -/

theorem run_go_append (trader_accounts : List ℕ) (n_simulations : ℕ)
    (payout : ℤ) (u : ℕ → ℕ → ℕ → ℕ → ℚ) (l1 l2 : List ℚ) (k : ℕ)
    (acc : List (ℚ × List ℤ)) :
    run_vectorized_simulation_go trader_accounts n_simulations payout u k
        (l1 ++ l2) acc =
      run_vectorized_simulation_go trader_accounts n_simulations payout u
        (k + l1.length) l2
        (run_vectorized_simulation_go trader_accounts n_simulations payout u
          k l1 acc) := by
  induction l1 generalizing k acc with
  | nil => simp [run_vectorized_simulation_go]
  | cons rate rest ih =>
      simp only [List.cons_append, run_vectorized_simulation_go,
        List.length_cons]
      rw [show k + (rest.length + 1) = k + 1 + rest.length by omega]
      exact ih (k + 1) _

theorem run_go_get?_of_not_mem (trader_accounts : List ℕ)
    (n_simulations : ℕ) (payout : ℤ) (u : ℕ → ℕ → ℕ → ℕ → ℚ)
    (r : ℚ) (rates : List ℚ) (k : ℕ) (acc : List (ℚ × List ℤ))
    (h : r ∉ rates) :
    dict_get? r (run_vectorized_simulation_go trader_accounts n_simulations
        payout u k rates acc) = dict_get? r acc := by
  induction rates generalizing k acc with
  | nil => rfl
  | cons rate rest ih =>
      have hr : r ≠ rate := fun e => h (e ▸ List.mem_cons_self rate rest)
      have hrest : r ∉ rest := fun e => h (List.mem_cons_of_mem rate e)
      simp only [run_vectorized_simulation_go, ih _ _ hrest,
        dict_get?_insert_ne _ _ _ _ hr]

theorem run_go_of_nodup (trader_accounts : List ℕ) (n_simulations : ℕ)
    (payout : ℤ) (u : ℕ → ℕ → ℕ → ℕ → ℚ) (rates : List ℚ) (k : ℕ)
    (acc : List (ℚ × List ℤ)) (hnd : rates.Nodup)
    (hacc : ∀ r ∈ rates, r ∉ dict_keys acc) :
    run_vectorized_simulation_go trader_accounts n_simulations payout u k
        rates acc =
      acc ++ (List.enumFrom k rates).map (fun kr =>
        (kr.2, run_vectorized_simulation_batch trader_accounts n_simulations
          (1 - kr.2) payout (u kr.1))) := by
  induction rates generalizing k acc with
  | nil => simp [run_vectorized_simulation_go]
  | cons rate rest ih =>
      have hk : rate ∉ dict_keys acc := hacc rate (List.mem_cons_self _ _)
      have hnd2 : rest.Nodup := (List.nodup_cons.mp hnd).2
      have hni : rate ∉ rest := (List.nodup_cons.mp hnd).1
      simp only [run_vectorized_simulation_go]
      rw [dict_insert_of_not_mem_keys _ _ _ hk]
      rw [ih (k + 1) _ hnd2 ?_]
      · simp [List.enumFrom, List.append_assoc]
      · intro r hr
        rw [dict_keys]
        simp only [List.map_append]
        intro hmem
        rcases List.mem_append.mp hmem with hmem | hmem
        · exact hacc r (List.mem_cons_of_mem rate hr) hmem
        · simp only [List.map_cons, List.map_nil, List.mem_singleton] at hmem
          exact hni (hmem ▸ hr)

theorem run_vectorized_simulation_eq_of_nodup (trader_accounts : List ℕ)
    (n_simulations : ℕ) (payout : ℤ) (u : ℕ → ℕ → ℕ → ℕ → ℚ)
    (rates : List ℚ) (hnd : rates.Nodup) :
    run_vectorized_simulation trader_accounts n_simulations rates payout u =
      rates.enum.map (fun kr =>
        (kr.2, run_vectorized_simulation_batch trader_accounts n_simulations
          (1 - kr.2) payout (u kr.1))) := by
  have := run_go_of_nodup trader_accounts n_simulations payout u rates 0 []
    hnd (by simp [dict_keys])
  simpa [run_vectorized_simulation, List.enum] using this

theorem mem_keys_run_go (trader_accounts : List ℕ) (n_simulations : ℕ)
    (payout : ℤ) (u : ℕ → ℕ → ℕ → ℕ → ℚ) (r : ℚ) (rates : List ℚ) (k : ℕ)
    (acc : List (ℚ × List ℤ)) :
    r ∈ dict_keys (run_vectorized_simulation_go trader_accounts n_simulations
        payout u k rates acc) ↔ r ∈ rates ∨ r ∈ dict_keys acc := by
  induction rates generalizing k acc with
  | nil => simp [run_vectorized_simulation_go]
  | cons rate rest ih =>
      simp only [run_vectorized_simulation_go, ih, mem_keys_insert,
        List.mem_cons]
      tauto

theorem nodup_keys_run_go (trader_accounts : List ℕ) (n_simulations : ℕ)
    (payout : ℤ) (u : ℕ → ℕ → ℕ → ℕ → ℚ) (rates : List ℚ) (k : ℕ)
    (acc : List (ℚ × List ℤ)) (h : (dict_keys acc).Nodup) :
    (dict_keys (run_vectorized_simulation_go trader_accounts n_simulations
        payout u k rates acc)).Nodup := by
  induction rates generalizing k acc with
  | nil => exact h
  | cons rate rest ih =>
      exact ih _ _ (nodup_keys_insert _ _ _ h)

theorem run_go_length_le (trader_accounts : List ℕ) (n_simulations : ℕ)
    (payout : ℤ) (u : ℕ → ℕ → ℕ → ℕ → ℚ) (rates : List ℚ) (k : ℕ)
    (acc : List (ℚ × List ℤ)) :
    (run_vectorized_simulation_go trader_accounts n_simulations payout u k
        rates acc).length ≤ acc.length + rates.length := by
  induction rates generalizing k acc with
  | nil => simp [run_vectorized_simulation_go]
  | cons rate rest ih =>
      simp only [run_vectorized_simulation_go, List.length_cons]
      calc (run_vectorized_simulation_go trader_accounts n_simulations payout
              u (k + 1) rest (dict_insert rate _ acc)).length
          ≤ (dict_insert rate _ acc).length + rest.length := ih _ _
        _ ≤ acc.length + 1 + rest.length :=
            Nat.add_le_add_right (length_insert_le _ _ _) _
        _ = acc.length + (rest.length + 1) := by omega

theorem run_go_length_lt (trader_accounts : List ℕ) (n_simulations : ℕ)
    (payout : ℤ) (u : ℕ → ℕ → ℕ → ℕ → ℚ) (r : ℚ) (rates : List ℚ) (k : ℕ)
    (acc : List (ℚ × List ℤ)) (hacc : r ∈ dict_keys acc) (hr : r ∈ rates) :
    (run_vectorized_simulation_go trader_accounts n_simulations payout u k
        rates acc).length + 1 ≤ acc.length + rates.length := by
  induction rates generalizing k acc with
  | nil => simp at hr
  | cons rate rest ih =>
      simp only [run_vectorized_simulation_go, List.length_cons]
      rcases List.mem_cons.mp hr with hr1 | hr1
      · subst hr1
        have h1 := run_go_length_le trader_accounts n_simulations payout u
          rest (k + 1)
          (dict_insert r (run_vectorized_simulation_batch trader_accounts
            n_simulations (1 - r) payout (u k)) acc)
        have h2 := length_insert_of_mem_keys r
          (run_vectorized_simulation_batch trader_accounts n_simulations
            (1 - r) payout (u k)) acc hacc
        omega
      · have hacc2 : r ∈ dict_keys (dict_insert rate
            (run_vectorized_simulation_batch trader_accounts n_simulations
              (1 - rate) payout (u k)) acc) :=
          (mem_keys_insert _ _ _ _).mpr (Or.inr hacc)
        have h1 := ih (k + 1) _ hacc2 hr1
        have h2 := length_insert_le rate
          (run_vectorized_simulation_batch trader_accounts n_simulations
            (1 - rate) payout (u k)) acc
        omega

/-! ### Behaviour of a batch when every trial succeeds -/

theorem binomial_draw_of_lt (n : ℕ) (p : ℚ) (us : ℕ → ℚ)
    (h : ∀ j, us j < p) : binomial_draw n p us = n := by
  unfold binomial_draw
  rw [List.countP_eq_length.mpr, List.length_range]
  intro j _
  simpa using h j

theorem sim_row_of_lt (trader_accounts : List ℕ) (p : ℚ) (ut : ℕ → ℕ → ℚ)
    (h : ∀ t j, ut t j < p) : sim_row trader_accounts p ut = trader_accounts := by
  unfold sim_row
  rw [List.map_congr_left (g := Prod.snd)
    (fun x _ => binomial_draw_of_lt x.2 p (ut x.1) (h x.1))]
  exact List.enum_map_snd trader_accounts

theorem run_batch_all_success (trader_accounts : List ℕ)
    (n_simulations : ℕ) (p : ℚ) (payout : ℤ) (u : ℕ → ℕ → ℕ → ℚ)
    (h : ∀ i t j, u i t j < p) :
    run_vectorized_simulation_batch trader_accounts n_simulations p payout u =
      List.replicate n_simulations ((trader_accounts.sum : ℤ) * payout) := by
  unfold run_vectorized_simulation_batch
  rw [List.map_congr_left
    (g := fun _ => ((trader_accounts.sum : ℤ) * payout))
    (fun i _ => by rw [sim_row_of_lt trader_accounts p (u i) (h i)])]
  simp

theorem run_go_get?_zero (trader_accounts : List ℕ) (n_simulations : ℕ)
    (payout : ℤ) (u : ℕ → ℕ → ℕ → ℕ → ℚ)
    (hu : ∀ k i t j, u k i t j < 1) :
    ∀ (rates : List ℚ) (k : ℕ) (acc : List (ℚ × List ℤ)), (0 : ℚ) ∈ rates →
      dict_get? 0 (run_vectorized_simulation_go trader_accounts n_simulations
          payout u k rates acc) =
        some (List.replicate n_simulations ((trader_accounts.sum : ℤ) * payout)) := by
  intro rates
  induction rates with
  | nil => intro k acc h; simp at h
  | cons rate rest ih =>
      intro k acc h0
      by_cases hrest : (0 : ℚ) ∈ rest
      · exact ih (k + 1) _ hrest
      · have hrate : rate = 0 := by
          rcases List.mem_cons.mp h0 with h1 | h1
          · exact h1.symm
          · exact absurd h1 hrest
        subst hrate
        show dict_get? 0 (run_vectorized_simulation_go trader_accounts
          n_simulations payout u (k + 1) rest _) = _
        rw [run_go_get?_of_not_mem trader_accounts n_simulations payout u 0
          rest (k + 1) _ hrest]
        rw [show (1 : ℚ) - 0 = 1 by norm_num]
        rw [run_batch_all_success trader_accounts n_simulations 1 payout (u k)
          (fun i t j => hu k i t j)]
        exact dict_get?_insert_self 0 _ acc


/-! ### Helper lemmas for the financial derivations -/

theorem foldl_min_mem (x : ℚ) (xs : List ℚ) : xs.foldl min x ∈ x :: xs := by
  induction xs generalizing x with
  | nil => simp
  | cons y ys ih =>
      show List.foldl min (min x y) ys ∈ x :: y :: ys
      rcases List.mem_cons.mp (ih (min x y)) with h | h
      · rcases min_choice x y with e | e
        · rw [h, e]; exact List.mem_cons_self _ _
        · rw [h, e]; exact List.mem_cons_of_mem _ (List.mem_cons_self _ _)
      · exact List.mem_cons_of_mem _ (List.mem_cons_of_mem _ h)

theorem foldl_min_le (x : ℚ) (xs : List ℚ) : ∀ y ∈ x :: xs, xs.foldl min x ≤ y := by
  induction xs generalizing x with
  | nil =>
      intro y hy
      simp only [List.mem_cons, List.not_mem_nil, or_false] at hy
      subst hy
      exact le_refl y
  | cons z zs ih =>
      intro y hy
      show List.foldl min (min x z) zs ≤ y
      rcases List.mem_cons.mp hy with h | h
      · subst h
        exact le_trans (ih (min y z) (min y z) (List.mem_cons_self _ _))
          (min_le_left y z)
      · rcases List.mem_cons.mp h with h1 | h1
        · subst h1
          exact le_trans (ih (min x y) (min x y) (List.mem_cons_self _ _))
            (min_le_right x y)
        · exact ih (min x z) _ (List.mem_cons_of_mem _ h1)

theorem lowest_profitable_rate_none_iff (df : List (ℚ × ℚ)) :
    lowest_profitable_rate_search df = none ↔ ∀ pr ∈ df, pr.2 ≤ 0 := by
  unfold lowest_profitable_rate_search
  cases hm : (df.filter (fun pr => decide (0 < pr.2))).map Prod.fst with
  | nil =>
      constructor
      · intro _ pr hpr
        by_contra hpos
        push_neg at hpos
        have h1 : pr ∈ df.filter (fun pr => decide (0 < pr.2)) :=
          List.mem_filter.mpr (And.intro hpr (decide_eq_true hpos))
        have h2 : pr.1 ∈ (df.filter (fun pr => decide (0 < pr.2))).map Prod.fst :=
          List.mem_map_of_mem Prod.fst h1
        rw [hm] at h2
        simp at h2
      · intro _; rfl
  | cons x xs =>
      constructor
      · intro h; cases h
      · intro hall
        exfalso
        have hx : x ∈ (df.filter (fun pr => decide (0 < pr.2))).map Prod.fst := by
          rw [hm]; exact List.mem_cons_self x xs
        obtain ⟨pr, hprf, _⟩ := List.mem_map.mp hx
        have h2 := List.mem_filter.mp hprf
        have h3 := hall pr h2.1
        have h4 := of_decide_eq_true h2.2
        linarith

theorem lowest_profitable_rate_some_spec (df : List (ℚ × ℚ)) (r : ℚ)
    (h : lowest_profitable_rate_search df = some r) :
    (∃ pr, (r, pr) ∈ df ∧ 0 < pr) ∧ ∀ q ∈ df, 0 < q.2 → r ≤ q.1 := by
  unfold lowest_profitable_rate_search at h
  cases hm : (df.filter (fun pr => decide (0 < pr.2))).map Prod.fst with
  | nil => rw [hm] at h; cases h
  | cons x xs =>
      rw [hm] at h
      have h2 : some (xs.foldl min x) = some r := h
      have hr : xs.foldl min x = r := Option.some.inj h2
      constructor
      · have hmem : r ∈ x :: xs := hr ▸ foldl_min_mem x xs
        rw [← hm] at hmem
        obtain ⟨pr, hprf, hfst⟩ := List.mem_map.mp hmem
        have h3 := List.mem_filter.mp hprf
        refine ⟨pr.2, ?_, of_decide_eq_true h3.2⟩
        have hpr2 : (r, pr.2) = pr := by rw [← hfst]
        rw [hpr2]
        exact h3.1
      · intro q hq hq2
        have hqm : q.1 ∈ x :: xs := by
          rw [← hm]
          exact List.mem_map_of_mem Prod.fst
            (List.mem_filter.mpr (And.intro hq (decide_eq_true hq2)))
        exact hr ▸ foldl_min_le x xs q.1 hqm


theorem failure_rate_range_nodup : failure_rate_range.Nodup := by
  unfold failure_rate_range
  apply List.Nodup.map_on
  · intro i _ j _ hij
    field_simp at hij
    exact_mod_cast hij
  · exact List.nodup_range 99

theorem profit_data_map_fst (total_revenue : ℤ)
    (results : List (ℚ × List ℤ)) :
    (profit_data total_revenue results).map Prod.fst =
      dict_keys results := by
  unfold profit_data dict_keys
  rw [List.map_map]
  rfl

theorem dict_keys_run_sim_of_nodup (trader_accounts : List ℕ)
    (n_simulations : ℕ) (rates : List ℚ) (payout : ℤ)
    (u : ℕ → ℕ → ℕ → ℕ → ℚ) (hnd : rates.Nodup) :
    dict_keys (run_vectorized_simulation trader_accounts n_simulations rates
      payout u) = rates := by
  rw [run_vectorized_simulation_eq_of_nodup trader_accounts n_simulations
    payout u rates hnd]
  unfold dict_keys
  rw [List.map_map]
  have : (Prod.fst ∘ fun kr : ℕ × ℚ =>
      (kr.2, run_vectorized_simulation_batch trader_accounts n_simulations
        (1 - kr.2) payout (u kr.1))) = Prod.snd := rfl
  rw [this]
  exact List.enum_map_snd rates


/-! ### Claim theorems about the simulation engine -/

/-- C1: for every population, failure rate in the list and replicate index,
the batch entry is the sum over traders of one binomial draw each
(`n` = that trader account count, `p = 1 - rate`), multiplied by
`payout_per_successful_account`; each batch has exactly `n_simulations`
entries, each nonnegative and a multiple of the payout. -/
theorem claim_C1_engine_batch_shape (trader_accounts : List ℕ)
    (n_simulations : ℕ) (failure_rates : List ℚ) (payout : ℤ)
    (u : ℕ → ℕ → ℕ → ℕ → ℚ) (hnd : failure_rates.Nodup) (hpay : 0 ≤ payout) :
    (run_vectorized_simulation trader_accounts n_simulations failure_rates
        payout u =
      failure_rates.enum.map (fun kr => (kr.2,
        (List.range n_simulations).map (fun i =>
          ((trader_accounts.enum.map (fun ta =>
            binomial_draw ta.2 (1 - kr.2) (u kr.1 i ta.1))).sum : ℤ) *
            payout)))) ∧
    (∀ rb ∈ run_vectorized_simulation trader_accounts n_simulations
        failure_rates payout u,
      rb.2.length = n_simulations ∧ ∀ x ∈ rb.2, 0 ≤ x ∧ payout ∣ x) := by
  have heq := run_vectorized_simulation_eq_of_nodup trader_accounts
    n_simulations payout u failure_rates hnd
  constructor
  · rw [heq]
    simp only [run_vectorized_simulation_batch, sim_row]
  · intro rb hrb
    rw [heq] at hrb
    obtain ⟨kr, _, hkr⟩ := List.mem_map.mp hrb
    constructor
    · rw [← hkr]
      simp [run_vectorized_simulation_batch]
    · intro x hx
      rw [← hkr] at hx
      simp only [run_vectorized_simulation_batch, List.mem_map] at hx
      obtain ⟨i, _, hi⟩ := hx
      subst hi
      exact ⟨mul_nonneg (Int.natCast_nonneg _) hpay, dvd_mul_left _ _⟩

/-- C1 witness: concrete instance of the batch-shape theorem. -/
theorem claim_C1_engine_batch_shape_witness :
    (run_vectorized_simulation [1, 2] 2 [0] 10 (fun _ _ _ _ => 0) =
      ([(0 : ℚ)]).enum.map (fun kr => (kr.2,
        (List.range 2).map (fun i =>
          ((([1, 2] : List ℕ).enum.map (fun ta =>
            binomial_draw ta.2 (1 - kr.2)
              ((fun _ _ _ _ => (0 : ℚ)) kr.1 i ta.1))).sum : ℤ) * 10)))) ∧
    (∀ rb ∈ run_vectorized_simulation [1, 2] 2 [0] 10 (fun _ _ _ _ => 0),
      rb.2.length = 2 ∧ ∀ x ∈ rb.2, 0 ≤ x ∧ (10 : ℤ) ∣ x) :=
  claim_C1_engine_batch_shape [1, 2] 2 [0] 10 (fun _ _ _ _ => 0)
    (by simp) (by norm_num)

/-- C2 counterexample: with failure rate `1` (outside `[0,1)`),
`n_simulations = 0 < 1` and a negative payout `-1`, the engine raises
nothing and returns a result: no `InvalidParameter` validation exists. -/
theorem claim_C2_counterexample :
    run_vectorized_simulation_exc [1] 0 [(1 : ℚ)] (-1) (fun _ _ _ _ => 0) =
      Except.ok [((1 : ℚ), [])] := by
  norm_num [run_vectorized_simulation_exc, run_vectorized_simulation_exc_go,
    run_vectorized_simulation_batch, dict_insert]

theorem run_exc_go_ok (trader_accounts : List ℕ) (n_simulations : ℕ)
    (payout : ℤ) (u : ℕ → ℕ → ℕ → ℕ → ℚ) :
    ∀ (rates : List ℚ) (k : ℕ) (acc : List (ℚ × List ℤ)),
      (∀ r ∈ rates, 0 ≤ r ∧ r ≤ 1) →
      run_vectorized_simulation_exc_go trader_accounts n_simulations payout u
          k rates acc =
        Except.ok (run_vectorized_simulation_go trader_accounts n_simulations
          payout u k rates acc) := by
  intro rates
  induction rates with
  | nil => intro k acc _; rfl
  | cons rate rest ih =>
      intro k acc h
      have hr := h rate (List.mem_cons_self rate rest)
      have hcond : 0 ≤ 1 - rate ∧ 1 - rate ≤ 1 := by
        constructor <;> linarith [hr.1, hr.2]
      simp only [run_vectorized_simulation_exc_go, if_pos hcond,
        run_vectorized_simulation_go]
      exact ih (k + 1) _ (fun r hrr => h r (List.mem_cons_of_mem rate hrr))

theorem run_exc_go_error (trader_accounts : List ℕ) (n_simulations : ℕ)
    (payout : ℤ) (u : ℕ → ℕ → ℕ → ℕ → ℚ) :
    ∀ (rates : List ℚ) (k : ℕ) (acc : List (ℚ × List ℤ)),
      (∃ r ∈ rates, r < 0 ∨ 1 < r) →
      ∃ e, run_vectorized_simulation_exc_go trader_accounts n_simulations
          payout u k rates acc = Except.error e := by
  intro rates
  induction rates with
  | nil => intro k acc h; simp at h
  | cons rate rest ih =>
      intro k acc h
      by_cases hcond : 0 ≤ 1 - rate ∧ 1 - rate ≤ 1
      · have hrest : ∃ r ∈ rest, r < 0 ∨ 1 < r := by
          obtain ⟨r, hr, hbad⟩ := h
          rcases List.mem_cons.mp hr with h1 | h1
          · subst h1
            rcases hbad with hbad | hbad <;>
              [exact absurd hcond.2 (by push_neg; linarith);
               exact absurd hcond.1 (by push_neg; linarith)]
          · exact ⟨r, h1, hbad⟩
        simp only [run_vectorized_simulation_exc_go, if_pos hcond]
        exact ih (k + 1) _ hrest
      · exact ⟨"ValueError: p < 0, p > 1 or p is NaN",
          by simp only [run_vectorized_simulation_exc_go, if_neg hcond]⟩

/-- C2 amended: the engine performs no parameter validation of its own.
It returns an ordinary result for any `n_simulations` (including 0) and
any payout (including negatives); an error occurs exactly when some
failure rate `r` gives `np.random.binomial` a probability `1 - r`
outside `[0,1]`, that is when `r < 0` or `r > 1`, and that error is
numpy ValueError raised during sampling, not a prior `InvalidParameter`
check. -/
theorem claim_C2_amended_no_validation (trader_accounts : List ℕ)
    (n_simulations : ℕ) (failure_rates : List ℚ) (payout : ℤ)
    (u : ℕ → ℕ → ℕ → ℕ → ℚ) :
    ((∀ r ∈ failure_rates, 0 ≤ r ∧ r ≤ 1) →
      run_vectorized_simulation_exc trader_accounts n_simulations
          failure_rates payout u =
        Except.ok (run_vectorized_simulation trader_accounts n_simulations
          failure_rates payout u)) ∧
    ((∃ e, run_vectorized_simulation_exc trader_accounts n_simulations
          failure_rates payout u = Except.error e) ↔
      ∃ r ∈ failure_rates, r < 0 ∨ 1 < r) := by
  constructor
  · intro h
    exact run_exc_go_ok trader_accounts n_simulations payout u failure_rates
      0 [] h
  · constructor
    · intro ⟨e, he⟩
      by_contra hno
      push_neg at hno
      have : ∀ r ∈ failure_rates, 0 ≤ r ∧ r ≤ 1 := by
        intro r hr
        have := hno r hr
        constructor <;> linarith [this.1, this.2]
      unfold run_vectorized_simulation_exc at he
      rw [run_exc_go_ok trader_accounts n_simulations payout u failure_rates
        0 [] this] at he
      exact Except.noConfusion he
    · intro h
      exact run_exc_go_error trader_accounts n_simulations payout u
        failure_rates 0 [] h

/-- C4: when the failure rate 0 is among the supplied rates, its batch
consists of `n_simulations` copies of `sum(population) * payout`
exactly: with success probability 1 every account succeeds. -/
theorem claim_C4_zero_failure_rate (trader_accounts : List ℕ)
    (n_simulations : ℕ) (failure_rates : List ℚ) (payout : ℤ)
    (u : ℕ → ℕ → ℕ → ℕ → ℚ) (hu : ∀ k i t j, u k i t j < 1)
    (h0 : (0 : ℚ) ∈ failure_rates) :
    dict_get? 0 (run_vectorized_simulation trader_accounts n_simulations
        failure_rates payout u) =
      some (List.replicate n_simulations ((trader_accounts.sum : ℤ) * payout)) :=
  run_go_get?_zero trader_accounts n_simulations payout u hu failure_rates 0
    [] h0

/-- C4 witness: population `[2, 3]`, two replicates, payout 7: the batch
at failure rate 0 is `[35, 35]`. -/
theorem claim_C4_zero_failure_rate_witness :
    dict_get? 0 (run_vectorized_simulation [2, 3] 2 [0] 7
        (fun _ _ _ _ => 0)) = some [35, 35] := by
  have h := claim_C4_zero_failure_rate [2, 3] 2 [0] 7 (fun _ _ _ _ => 0)
    (fun _ _ _ _ => by norm_num) (by simp)
  simpa [List.replicate] using h

/-- C9: the engine is a deterministic function of its inputs and the
seed: two invocations whose population, simulation count, failure-rate
list, payout and seed coincide produce identical batch mappings, for any
expansion of a seed into a uniform stream. -/
theorem claim_C9_deterministic_given_seed
    (expand : ℕ → ℕ → ℕ → ℕ → ℕ → ℚ) (ta₁ ta₂ : List ℕ) (n₁ n₂ : ℕ)
    (rates₁ rates₂ : List ℚ) (pay₁ pay₂ : ℤ) (seed₁ seed₂ : ℕ)
    (h : ta₁ = ta₂ ∧ n₁ = n₂ ∧ rates₁ = rates₂ ∧ pay₁ = pay₂ ∧
      seed₁ = seed₂) :
    run_vectorized_simulation ta₁ n₁ rates₁ pay₁ (expand seed₁) =
      run_vectorized_simulation ta₂ n₂ rates₂ pay₂ (expand seed₂) := by
  obtain ⟨h1, h2, h3, h4, h5⟩ := h
  rw [h1, h2, h3, h4, h5]

/-- C9 witness: a concrete pair of identical invocations. -/
theorem claim_C9_deterministic_given_seed_witness :
    run_vectorized_simulation [1] 1 [0] 5 ((fun _ _ _ _ _ => 0) 3) =
      run_vectorized_simulation [1] 1 [0] 5 ((fun _ _ _ _ _ => 0) 3) :=
  claim_C9_deterministic_given_seed (fun _ _ _ _ _ => 0) [1] [1] 1 1 [0] [0]
    5 5 3 3 ⟨rfl, rfl, rfl, rfl, rfl⟩

/-- C10: the engine result holds exactly one batch per distinct failure
rate: its keys are exactly the distinct supplied rates; a rate occurring
more than once keeps only the batch drawn at its last occurrence; with a
genuine duplicate the result is strictly shorter than the input list,
and no error is raised. -/
theorem claim_C10_duplicate_rates (trader_accounts : List ℕ)
    (n_simulations : ℕ) (failure_rates : List ℚ) (payout : ℤ)
    (u : ℕ → ℕ → ℕ → ℕ → ℚ) :
    ((dict_keys (run_vectorized_simulation trader_accounts n_simulations
        failure_rates payout u)).Nodup) ∧
    (∀ q : ℚ, q ∈ dict_keys (run_vectorized_simulation trader_accounts
        n_simulations failure_rates payout u) ↔ q ∈ failure_rates) ∧
    (∀ (l1 l2 : List ℚ) (r : ℚ), failure_rates = l1 ++ r :: l2 → r ∉ l2 →
      dict_get? r (run_vectorized_simulation trader_accounts n_simulations
          failure_rates payout u) =
        some (run_vectorized_simulation_batch trader_accounts n_simulations
          (1 - r) payout (u l1.length))) ∧
    (∀ (l1 l2 : List ℚ) (r : ℚ), failure_rates = l1 ++ r :: l2 → r ∈ l2 →
      (run_vectorized_simulation trader_accounts n_simulations failure_rates
        payout u).length < failure_rates.length) := by
  refine ⟨?_, ?_, ?_, ?_⟩
  · exact nodup_keys_run_go trader_accounts n_simulations payout u
      failure_rates 0 [] (by simp [dict_keys])
  · intro q
    unfold run_vectorized_simulation
    rw [mem_keys_run_go]
    simp [dict_keys]
  · intro l1 l2 r hsplit hnot
    subst hsplit
    unfold run_vectorized_simulation
    rw [run_go_append trader_accounts n_simulations payout u l1 (r :: l2) 0 []]
    show dict_get? r (run_vectorized_simulation_go trader_accounts
      n_simulations payout u (0 + l1.length + 1) l2 _) = _
    rw [run_go_get?_of_not_mem trader_accounts n_simulations payout u r l2
      _ _ hnot]
    rw [dict_get?_insert_self]
    rw [Nat.zero_add]
  · intro l1 l2 r hsplit hmem
    subst hsplit
    unfold run_vectorized_simulation
    rw [run_go_append trader_accounts n_simulations payout u l1 (r :: l2) 0 []]
    show (run_vectorized_simulation_go trader_accounts n_simulations payout u
      (0 + l1.length + 1) l2 (dict_insert r _ _)).length < _
    have hself : r ∈ dict_keys (dict_insert r
        (run_vectorized_simulation_batch trader_accounts n_simulations
          (1 - r) payout (u (0 + l1.length)))
        (run_vectorized_simulation_go trader_accounts n_simulations payout u
          0 l1 [])) :=
      (mem_keys_insert _ _ _ _).mpr (Or.inl rfl)
    have h1 := run_go_length_lt trader_accounts n_simulations payout u r l2
      (0 + l1.length + 1) _ hself hmem
    have h2 := length_insert_le r
      (run_vectorized_simulation_batch trader_accounts n_simulations
        (1 - r) payout (u (0 + l1.length)))
      (run_vectorized_simulation_go trader_accounts n_simulations payout u
        0 l1 [])
    have h3 := run_go_length_le trader_accounts n_simulations payout u l1 0 []
    simp only [List.length_append, List.length_cons, List.length_nil] at *
    omega

/-- C10 witness: with the duplicated rate list `[0, 0]` the result has a
single entry, strictly fewer than the two input rates, and it is the
batch drawn at the last occurrence (stream slice `u 1`). -/
theorem claim_C10_duplicate_rates_witness :
    (run_vectorized_simulation [1] 1 [0, 0] 5 (fun _ _ _ _ => 0)).length <
      2 ∧
    dict_get? 0 (run_vectorized_simulation [1] 1 [0, 0] 5
        (fun _ _ _ _ => 0)) =
      some (run_vectorized_simulation_batch [1] 1 (1 - 0) 5
        ((fun _ _ _ _ => (0 : ℚ)) 1)) := by
  constructor
  · exact (claim_C10_duplicate_rates [1] 1 [0, 0] 5
      (fun _ _ _ _ => 0)).2.2.2 [] [0] 0 rfl (by simp)
  · exact (claim_C10_duplicate_rates [1] 1 [0, 0] 5
      (fun _ _ _ _ => 0)).2.2.1 [0] [] 0 rfl (by simp)

/-! ### Claim theorems about the main application flow -/

/-- C3: one top-level run generates the population once and hands that
same value to the engine both for every scenario failure rate and for
the whole breakeven sweep, while each sensitivity-sweep axis point
builds a fresh population (`np.random.poisson(avg, ...)` at each average
value, `np.random.randint(1, max+1, ...)` at each range width); all
population values are immutable lists. -/
theorem claim_C3_population_generated_once (p : SimParams)
    (rs : RandomSource) (np_std : List ℤ → ℚ) :
    ∃ pop : List ℕ,
      pop = generate_trader_accounts p rs ∧
      (main_app_run p rs np_std).trader_accounts = pop ∧
      (main_app_run p rs np_std).simulation_results =
        run_vectorized_simulation pop p.n_simulations scenario_failure_rates
          p.payout_per_successful_account rs.u_scenario ∧
      (main_app_run p rs np_std).breakeven_results =
        run_vectorized_simulation pop p.n_simulations failure_rate_range
          p.payout_per_successful_account rs.u_breakeven ∧
      run_risk_analysis p.num_traders p.n_simulations scenario_failure_rates
          p.payout_per_successful_account rs.pois_risk rs.u_risk np_std =
        (List.range 20).flatMap (fun a =>
          (run_vectorized_simulation
            (np_random_poisson (a + 1) p.num_traders rs.pois_risk)
            p.n_simulations scenario_failure_rates
            p.payout_per_successful_account (rs.u_risk (a + 1))).map
            (fun rp => ⟨a + 1, rp.1, np_std rp.2⟩)) ∧
      run_randomized_risk_analysis p.num_traders p.n_simulations
          scenario_failure_rates p.payout_per_successful_account rs.ri_risk
          rs.u_risk np_std =
        (List.range 19).flatMap (fun m =>
          (run_vectorized_simulation
            (np_random_randint 1 (m + 2 + 1) p.num_traders
              (rs.ri_risk (m + 2)))
            p.n_simulations scenario_failure_rates
            p.payout_per_successful_account (rs.u_risk (m + 2))).map
            (fun rp => ⟨m + 2, rp.1, np_std rp.2⟩)) := by
  refine ⟨generate_trader_accounts p rs, rfl, ?_, ?_, ?_, ?_, ?_⟩
  · simp only [main_app_run]
  · simp only [main_app_run]
  · simp only [main_app_run]
  · simp only [run_risk_analysis]
  · simp only [run_randomized_risk_analysis]

/-- C7: the total revenue is `sum(population) * cost_per_account +
additional_revenue`, the total account count is `sum(population)`, and
the very same total-revenue value enters every scenario row's associated
profit, every estimated net profit and both ends of every
one-standard-deviation confidence band of tab 1, and every estimated
profit of the breakeven table. -/
theorem claim_C7_total_revenue_consistency (p : SimParams)
    (rs : RandomSource) (np_std : List ℤ → ℚ) :
    ((main_app_run p rs np_std).total_accounts =
      (main_app_run p rs np_std).trader_accounts.sum) ∧
    ((main_app_run p rs np_std).total_revenue =
      ((main_app_run p rs np_std).trader_accounts.sum : ℤ) *
        p.cost_per_account + p.additional_revenue) ∧
    (∀ row ∈ (main_app_run p rs np_std).all_scenarios_data,
      row.2.2 = (main_app_run p rs np_std).total_revenue - row.2.1) ∧
    (∀ v ∈ (main_app_run p rs np_std).views,
      v.estimated_net_profit =
        ((main_app_run p rs np_std).total_revenue : ℚ) - v.mean_payout ∧
      v.profit_minus_1_std =
        ((main_app_run p rs np_std).total_revenue : ℚ) -
          (v.mean_payout + v.std_payout) ∧
      v.profit_plus_1_std =
        ((main_app_run p rs np_std).total_revenue : ℚ) -
          (v.mean_payout - v.std_payout)) ∧
    ((main_app_run p rs np_std).df_profit = sort_values_failure_rate
      (profit_data (main_app_run p rs np_std).total_revenue
        (main_app_run p rs np_std).breakeven_results)) ∧
    (∀ pr ∈ profit_data (main_app_run p rs np_std).total_revenue
        (main_app_run p rs np_std).breakeven_results,
      ∃ rp ∈ (main_app_run p rs np_std).breakeven_results,
        pr.1 = rp.1 ∧
        pr.2 = ((main_app_run p rs np_std).total_revenue : ℚ) -
          np_mean rp.2) := by
  refine ⟨?_, ?_, ?_, ?_, ?_, ?_⟩
  · simp only [main_app_run]
  · simp only [main_app_run]
  · intro row hrow
    simp only [main_app_run, all_scenarios_rows, List.mem_flatMap,
      List.mem_map] at hrow
    obtain ⟨rp, _, payout_value, _, hrow⟩ := hrow
    subst hrow
    rfl
  · intro v hv
    simp only [main_app_run, scenario_views, List.mem_map] at hv
    obtain ⟨rate, _, hv⟩ := hv
    subst hv
    exact ⟨rfl, rfl, rfl⟩
  · simp only [main_app_run]
  · intro pr hpr
    simp only [profit_data, List.mem_map] at hpr
    obtain ⟨rp, hrp, hpr⟩ := hpr
    subst hpr
    exact ⟨rp, hrp, rfl, rfl⟩

theorem scenario_views_spec (total_revenue : ℤ)
    (results : List (ℚ × List ℤ)) (np_std : List ℤ → ℚ) (rate : ℚ)
    (b : List ℤ) (hrate : rate ∈ scenario_failure_rates)
    (hb : dict_get? rate results = some b) :
    ∃ v ∈ scenario_views total_revenue results np_std,
      v.rate = rate ∧ v.mean_payout = np_mean b ∧ v.std_payout = np_std b ∧
      v.profit_minus_1_std = (total_revenue : ℚ) -
        (np_mean b + np_std b) ∧
      v.profit_plus_1_std = (total_revenue : ℚ) -
        (np_mean b - np_std b) := by
  refine ⟨_, List.mem_map_of_mem _ hrate, ?_, ?_, ?_, ?_, ?_⟩ <;>
    simp [hb]

/-- C8: tab 1 lists, for each scenario failure rate, exactly the view
whose one-standard-deviation profit range is
`[total_revenue - (mean + std), total_revenue - (mean - std)]` computed
from that rate's batch in the engine's result; these derivations are
functions of the batch and the financial parameters only. -/
theorem claim_C8_confidence_band (p : SimParams) (rs : RandomSource)
    (np_std : List ℤ → ℚ) :
    ((main_app_run p rs np_std).views = scenario_views
      (main_app_run p rs np_std).total_revenue
      (main_app_run p rs np_std).simulation_results np_std) ∧
    (∀ rate ∈ scenario_failure_rates, ∃ b,
      dict_get? rate (main_app_run p rs np_std).simulation_results =
        some b ∧
      ∃ v ∈ (main_app_run p rs np_std).views,
        v.rate = rate ∧ v.mean_payout = np_mean b ∧
        v.std_payout = np_std b ∧
        v.profit_minus_1_std =
          ((main_app_run p rs np_std).total_revenue : ℚ) -
            (np_mean b + np_std b) ∧
        v.profit_plus_1_std =
          ((main_app_run p rs np_std).total_revenue : ℚ) -
            (np_mean b - np_std b)) := by
  refine ⟨?_, ?_⟩
  · simp only [main_app_run]
  intro rate hrate
  have hmem : rate ∈ dict_keys (run_vectorized_simulation
      (generate_trader_accounts p rs) p.n_simulations
      scenario_failure_rates p.payout_per_successful_account
      rs.u_scenario) := by
    unfold run_vectorized_simulation
    rw [mem_keys_run_go]
    simp [dict_keys, hrate]
  obtain ⟨b, hb⟩ := dict_get?_eq_some_of_mem_keys rate _ hmem
  simp only [main_app_run]
  exact ⟨b, hb, scenario_views_spec _ _ np_std rate b hrate hb⟩
/-- C5: the breakeven search returns `none` exactly when no sweep rate
has positive estimated profit (a normal, non-error outcome), and when it
returns a rate that rate has positive estimated profit and is minimal
among all rates with positive estimated profit; the profit table is a
permutation of one `(rate, total_revenue - mean_payout)` row per rate of
the ordered sweep `0.01, ..., 0.99`. -/
theorem claim_C5_breakeven_search (p : SimParams) (rs : RandomSource)
    (np_std : List ℤ → ℚ) :
    ((main_app_run p rs np_std).lowest_profitable_rate = none ↔
      ∀ pr ∈ (main_app_run p rs np_std).df_profit, pr.2 ≤ 0) ∧
    (∀ r, (main_app_run p rs np_std).lowest_profitable_rate = some r →
      (∃ pr, (r, pr) ∈ (main_app_run p rs np_std).df_profit ∧ 0 < pr) ∧
      ∀ q ∈ (main_app_run p rs np_std).df_profit, 0 < q.2 → r ≤ q.1) ∧
    List.Perm ((main_app_run p rs np_std).df_profit)
      (profit_data (main_app_run p rs np_std).total_revenue
        (main_app_run p rs np_std).breakeven_results) ∧
    ((profit_data (main_app_run p rs np_std).total_revenue
        (main_app_run p rs np_std).breakeven_results).map Prod.fst =
      failure_rate_range) := by
  refine ⟨?_, ?_, ?_, ?_⟩
  · simp only [main_app_run]
    exact lowest_profitable_rate_none_iff _
  · intro r h
    simp only [main_app_run] at h ⊢
    exact lowest_profitable_rate_some_spec _ r h
  · simp only [main_app_run]
    exact List.perm_insertionSort _ _
  · have hb : (main_app_run p rs np_std).breakeven_results =
        run_vectorized_simulation (generate_trader_accounts p rs)
          p.n_simulations failure_rate_range
          p.payout_per_successful_account rs.u_breakeven := by
      simp only [main_app_run]
    rw [profit_data_map_fst, hb]
    exact dict_keys_run_sim_of_nodup _ _ _ _ _ failure_rate_range_nodup


/-- C6: the average-accounts sweep visits exactly the axis values
`1..20` in ascending order, building a fresh Poisson population at each,
and the range-width sweep visits exactly `2..20`, building a fresh
uniform population on `[1, value]` at each; every row records the
standard deviation of that rate's batch, and within one axis value the
rows follow the insertion order of the supplied failure rates. -/
theorem claim_C6_sensitivity_sweeps (num_traders n_simulations : ℕ)
    (failure_rates : List ℚ) (payout : ℤ) (pois : ℕ → ℕ → ℕ)
    (ri : ℕ → ℕ → ℕ) (u₁ u₂ : ℕ → ℕ → ℕ → ℕ → ℕ → ℚ)
    (np_std : List ℤ → ℚ) (hnd : failure_rates.Nodup) :
    (run_risk_analysis num_traders n_simulations failure_rates payout pois
        u₁ np_std =
      (List.range 20).flatMap (fun a => failure_rates.enum.map (fun kr =>
        ⟨a + 1, kr.2, np_std (run_vectorized_simulation_batch
          (np_random_poisson (a + 1) num_traders pois) n_simulations
          (1 - kr.2) payout (u₁ (a + 1) kr.1))⟩))) ∧
    (run_randomized_risk_analysis num_traders n_simulations failure_rates
        payout ri u₂ np_std =
      (List.range 19).flatMap (fun m => failure_rates.enum.map (fun kr =>
        ⟨m + 2, kr.2, np_std (run_vectorized_simulation_batch
          (np_random_randint 1 (m + 2 + 1) num_traders (ri (m + 2)))
          n_simulations (1 - kr.2) payout (u₂ (m + 2) kr.1))⟩))) ∧
    (∀ m : ℕ, ∀ x ∈ np_random_randint 1 (m + 2 + 1) num_traders
        (ri (m + 2)), 1 ≤ x ∧ x ≤ m + 2) ∧
    (∀ lam : ℕ, (np_random_poisson lam num_traders pois).length =
      num_traders) := by
  refine ⟨?_, ?_, ?_, ?_⟩
  · simp only [run_risk_analysis]
    congr 1
    funext a
    rw [run_vectorized_simulation_eq_of_nodup _ _ _ _ _ hnd, List.map_map]
    rfl
  · simp only [run_randomized_risk_analysis]
    congr 1
    funext m
    rw [run_vectorized_simulation_eq_of_nodup _ _ _ _ _ hnd, List.map_map]
    rfl
  · intro m x hx
    unfold np_random_randint at hx
    simp only [List.mem_map, List.mem_range] at hx
    obtain ⟨i, _, hx⟩ := hx
    have hm : ri (m + 2) i % (m + 2 + 1 - 1) < m + 2 :=
      Nat.mod_lt _ (by omega)
    omega
  · intro lam
    simp [np_random_poisson]

/-- C6 witness: a concrete instantiation of the sweep theorem: the fresh
Poisson population at one axis point has the requested size, and the
single entry of the fresh uniform population at the first range-width
axis point lies inside the inclusive range `[1, 2]`. -/
theorem claim_C6_sensitivity_sweeps_witness :
    (np_random_poisson 5 1 (fun _ _ => 1)).length = 1 ∧
    (1 ≤ 1 ∧ 1 ≤ 0 + 2) :=
  ⟨(claim_C6_sensitivity_sweeps 1 1 [0] 1 (fun _ _ => 1) (fun _ _ => 0)
      (fun _ _ _ _ _ => 0) (fun _ _ _ _ _ => 0) (fun _ => 0)
      (by simp)).2.2.2 5,
    (claim_C6_sensitivity_sweeps 1 1 [0] 1 (fun _ _ => 1) (fun _ _ => 0)
      (fun _ _ _ _ _ => 0) (fun _ _ _ _ _ => 0) (fun _ => 0)
      (by simp)).2.2.1 0 1 (by decide)⟩
